import Mathlib

/-!
Verification of the two core routines of the JOS kernel monitor
(`kern/monitor.c`): the stack-frame unwinder `mon_backtrace` and the
virtual-to-physical mapping inspector `mon_showmap`.

Modelling conventions (shallow embedding of the C source):
* Machine words are 32 bits wide (x86 JOS): `uint32_t`/`uintptr_t`/`size_t`
  values are natural numbers reduced modulo `WORD = 2^32` at the points where
  the C types force truncation.
* Stack memory is a function `mem : Nat → Nat` from byte addresses to the
  32-bit word stored there (every load is reduced `% WORD`, as a
  `uint32_t` load is).
* The debug-info resolver `debuginfo_eip` (external collaborator, declared in
  `kern/kdebug.h`) is a function `resolve : Nat → Option Eipdebuginfo`:
  `some info` models a `0` return with `info` filled in, `none` models a
  negative return.
* The page-table walker `pgdir_walk` (external collaborator, declared in
  `kern/pmap.h`) is a state-passing function
  `walk : σ → Nat → Bool → Option Nat × σ`: given the page-table state, a
  virtual address and the `create` flag it returns the value of the leaf
  entry (`none` models a NULL `pte_t *`) together with the possibly updated
  page-table state. Since `mon_showmap` never writes through the returned
  pointer, returning the entry's value instead of a pointer is faithful.
* The C `while` loop of `mon_backtrace` can diverge on a cyclic frame chain
  (an explicit non-goal of the design); the embedding therefore carries a
  `fuel` bound, and theorems hold for every sufficiently large fuel.
* Console output is modelled as structured data: the sequence of report rows
  (`MapRow`) or frames (`BacktraceFrame`) that the `cprintf` calls emit.
  In addition the unwinder records the trace of resolver calls and stack
  loads it performs, so that claims about calls *not* made are expressible.
-/

namespace JosMonitor

/-- Width of a machine word: JOS runs on 32-bit x86. -/
def WORD : Nat := 2 ^ 32

/-- Page size, `PGSIZE` from `inc/mmu.h`. -/
def PGSIZE : Nat := 4096

/-- Present bit of a page-table entry (`PTE_P`). -/
def PTE_P : Nat := 1

/-- Writable bit of a page-table entry (`PTE_W`). -/
def PTE_W : Nat := 2

/-- User-accessible bit of a page-table entry (`PTE_U`). -/
def PTE_U : Nat := 4

/-- Macro `ROUNDDOWN(a, n)` from `inc/types.h`: round `a` down to the nearest
multiple of `n`. -/
def ROUNDDOWN (a n : Nat) : Nat := a / n * n

/-- Macro `PTE_ADDR(pte)` from `inc/mmu.h`: `pte & ~0xFFF` on a 32-bit
entry, i.e. the frame bits with the page-offset bits cleared. -/
def PTE_ADDR (pte : Nat) : Nat := pte &&& 0xFFFFF000

/-- Models `!!(pte & mask)` as used by `mon_showmap` for the `%d`-printed
U-bit and W-bit. -/
def pteBit (pte mask : Nat) : Nat := if pte &&& mask ≠ 0 then 1 else 0

/-- Result record of the debug-info resolver, `struct Eipdebuginfo` from
`kern/kdebug.h` (external collaborator; only the fields `mon_backtrace`
reads). -/
structure Eipdebuginfo where
  eip_file : String
  eip_line : Nat
  eip_fn_name : String
  eip_fn_namelen : Nat
  eip_fn_addr : Nat
deriving DecidableEq, Repr

/-- One emitted backtrace entry: the pair of `cprintf` lines the loop body of
`mon_backtrace` prints for one stack frame.  `arg0`..`arg4` are the five
candidate argument words `prev[2]`..`prev[6]`; `fnOffset` is the printed
`prev[1] - info.eip_fn_addr`, computed in 32-bit arithmetic. -/
structure BacktraceFrame where
  ebp : Nat
  eip : Nat
  arg0 : Nat
  arg1 : Nat
  arg2 : Nat
  arg3 : Nat
  arg4 : Nat
  info : Eipdebuginfo
  fnOffset : Nat
deriving DecidableEq, Repr

/-- Observable behaviour of one `mon_backtrace` run: the emitted frame
entries, the instruction addresses passed to the debug-info resolver (in call
order), and the byte addresses of the stack loads performed (in program
order, per iteration). -/
structure BtTrace where
  frames : List BacktraceFrame
  resolveCalls : List Nat
  memReads : List Nat
deriving DecidableEq, Repr

/-- Loop of `mon_backtrace` (`kern/monitor.c:70-81`):

    while(ebp != 0 && debuginfo_eip(prev[1], &info) == 0) {
        cprintf("ebp %x  eip %x  args ...", ebp, prev[1], prev[2..6]);
        cprintf("     %s:%d: %.*s+%d\n", info..., prev[1] - info.eip_fn_addr);
        ebp = *prev;
        prev = (uint32_t *)ebp;
    }

`prev[i]` is the 32-bit load at byte address `ebp + 4*i`.  The `&&` guard
short-circuits: when `ebp == 0` neither the stack nor the resolver is
touched.  `fuel` bounds the iteration count (the C loop is unbounded on a
cyclic chain); every claim is stated for all sufficiently large fuel. -/
def backtraceLoop (mem : Nat → Nat) (resolve : Nat → Option Eipdebuginfo) :
    Nat → Nat → BtTrace
  | 0, _ => ⟨[], [], []⟩
  | fuel + 1, ebp =>
    if ebp ≠ 0 then
      let eip := mem (ebp + 4) % WORD
      match resolve eip with
      | some info =>
        let frame : BacktraceFrame :=
          ⟨ebp, eip,
           mem (ebp + 8) % WORD, mem (ebp + 12) % WORD, mem (ebp + 16) % WORD,
           mem (ebp + 20) % WORD, mem (ebp + 24) % WORD,
           info,
           (eip + (WORD - info.eip_fn_addr % WORD)) % WORD⟩
        let rest := backtraceLoop mem resolve fuel (mem ebp % WORD)
        ⟨frame :: rest.frames, eip :: rest.resolveCalls,
         [ebp + 4, ebp + 8, ebp + 12, ebp + 16, ebp + 20, ebp + 24, ebp]
           ++ rest.memReads⟩
      | none => ⟨[], [eip], [ebp + 4]⟩
    else ⟨[], [], []⟩

/-- Stand-in for `struct Trapframe` (external; `mon_backtrace` never reads
it, it only receives the pointer). -/
def Trapframe : Type := Unit

/-- `mon_backtrace` (`kern/monitor.c:61-83`).  `ebp0` is the value
`read_ebp()` returns (a `uint32_t`); `argc`, `argv` and `tf` are the command
arguments and trap context, which the function ignores.  Returns the
observable trace together with the `int` status, which is always `0`. -/
def mon_backtrace (mem : Nat → Nat) (resolve : Nat → Option Eipdebuginfo)
    (ebp0 : Nat) (fuel : Nat)
    (argc : Nat) (argv : List String) (tf : Option Trapframe) :
    BtTrace × Int :=
  (backtraceLoop mem resolve fuel (ebp0 % WORD), 0)

/-- One report row of `mon_showmap`: the virtual address and either
`some (physicalAddress, uBit, wBit)` for a present mapping (the
`"VA: ..., PA: ..., U-bit: %d, W-bit: %d"` line) or `none` for the
`"VA: ..., PA: No Mapping"` line. -/
structure MapRow where
  va : Nat
  entry : Option (Nat × Nat × Nat)
deriving DecidableEq, Repr

/-- Output of one `mon_showmap` run: either the usage message or the list of
report rows. -/
inductive ShowmapOut where
  | usage : ShowmapOut
  | rows : List MapRow → ShowmapOut
deriving DecidableEq, Repr

/-- Rows carried by a `ShowmapOut` (the usage message carries none). -/
def ShowmapOut.rowList : ShowmapOut → List MapRow
  | .usage => []
  | .rows rs => rs

/-- Result of one `mon_showmap` run: output, `int` status, and the final
page-table state as threaded through the walker collaborator. -/
structure ShowmapResult (σ : Type) where
  out : ShowmapOut
  status : Int
  state : σ
deriving Repr

/-- Body of `mon_showmap`'s loop for one page: given the virtual address and
the walker's answer (`none` for a NULL `pte_t *`, otherwise the 32-bit entry
value `*pte`), the emitted row.  Mirrors `kern/monitor.c:109-114`:
a present entry yields `PTE_ADDR(*pte)` and the `!!`-normalized U/W bits, a
NULL pointer or a clear present bit yields the absent-mapping row. -/
def showmapRow (va : Nat) (pteOpt : Option Nat) : MapRow :=
  match pteOpt with
  | some pte =>
    if (pte % WORD) &&& PTE_P ≠ 0 then
      ⟨va, some (PTE_ADDR (pte % WORD),
                 pteBit (pte % WORD) PTE_U, pteBit (pte % WORD) PTE_W)⟩
    else ⟨va, none⟩
  | none => ⟨va, none⟩

/-- Loop of `mon_showmap` (`kern/monitor.c:106-116`):

    while(vstart < vend) {
        pte = pgdir_walk(kern_pgdir, (void *)vstart, 0);
        if(pte && (*pte & PTE_P))
            cprintf("VA: ..., PA: ..., U-bit: %d, W-bit: %d\n", vstart,
                    PTE_ADDR(*pte), !!(*pte & PTE_U), !!(*pte & PTE_W));
        else
            cprintf("VA: ..., PA: No Mapping\n", vstart);
        vstart += PGSIZE;
    }

Both bounds are page-aligned 32-bit values when the loop is entered (they
were just rounded down), so the `uint32_t` increment `vstart += PGSIZE`
never wraps before the guard fails and is plain addition here. -/
def showmapLoop {σ : Type} (walk : σ → Nat → Bool → Option Nat × σ)
    (vstart vend : Nat) (s : σ) : List MapRow × σ :=
  if h : vstart < vend then
    let r := walk s vstart false
    let rest := showmapLoop walk (vstart + PGSIZE) vend r.2
    (showmapRow vstart r.1 :: rest.1, rest.2)
  else ([], s)
termination_by vend - vstart
decreasing_by simp only [PGSIZE]; omega

/-- `mon_showmap` (`kern/monitor.c:85-122`).  `args` holds the numeric
values of `argv[1], argv[2], ...` as produced by the external `strtol`
parser and the `(uintptr_t)` / `(size_t)` casts reduce them to 32-bit
patterns, so `argc < 2` is `args = []` and `argc >= 3` is a second element
being present.  The walker collaborator is always invoked with the `create`
flag `false` (third `pgdir_walk` argument `0`). -/
def mon_showmap {σ : Type} (walk : σ → Nat → Bool → Option Nat × σ)
    (args : List Nat) (s : σ) : ShowmapResult σ :=
  match args with
  | [] => ⟨ShowmapOut.usage, 0, s⟩
  | a1 :: rest =>
    let vstart := a1 % WORD
    let vlen : Nat :=
      match rest with
      | [] => 1
      | a2 :: _ => a2 % WORD
    let vend := (vstart + vlen * PGSIZE) % WORD
    let lp := showmapLoop walk (ROUNDDOWN vstart PGSIZE) (ROUNDDOWN vend PGSIZE) s
    ⟨ShowmapOut.rows lp.1, 0, lp.2⟩

/-- Pure page-table walker built from a fixed lookup table: the state is
never changed and the leaf entry for a virtual address is `lookup va`. -/
def pureWalker (lookup : Nat → Option Nat) :
    Unit → Nat → Bool → Option Nat × Unit :=
  fun s va _ => (lookup va, s)

/-- Wraps a walker so that every invocation is recorded: the state grows a
log of `(virtualAddress, createFlag)` pairs, appended in call order. -/
def logWalker {σ : Type} (walk : σ → Nat → Bool → Option Nat × σ) :
    σ × List (Nat × Bool) → Nat → Bool → Option Nat × (σ × List (Nat × Bool)) :=
  fun p va c =>
    ((walk p.1 va c).1, ((walk p.1 va c).2, p.2 ++ [(va, c)]))

/-- Lookup table with no present mapping at all. -/
def noneLookup : Nat → Option Nat := fun _ => none

/-- Lookup table of the spec's concrete scenario: only the page at
`0x00400000` is mapped, present/writable/user, frame `0x00100000`
(entry value `0x00100000 | PTE_P | PTE_W | PTE_U = 0x00100007`). -/
def demoLookup : Nat → Option Nat :=
  fun va => if va = 0x00400000 then some 0x00100007 else none

/-- Report row the inspector emits for the mapped page of `demoLookup`. -/
def demoRow : MapRow := ⟨0x00400000, some (0x00100000, 1, 1)⟩

/-- Synthetic two-frame stack: frame at `100` (saved frame pointer `200`,
return address `11`) whose caller's frame at `200` has saved frame pointer
`0` (chain end) and return address `22`. -/
def memChain2 : Nat → Nat :=
  fun a =>
    if a = 100 then 200
    else if a = 104 then 11
    else if a = 200 then 0
    else if a = 204 then 22
    else 0

/-- Resolver that knows both return addresses of `memChain2`. -/
def resChain2 : Nat → Option Eipdebuginfo :=
  fun a =>
    if a = 11 then some ⟨"kern/init.c", 3, "fnA", 3, 5⟩
    else if a = 22 then some ⟨"kern/entry.S", 9, "fnB", 3, 20⟩
    else none

/-- Resolver that knows only the first return address of `memChain2`; the
second frame's return address `22` fails resolution. -/
def resFail1 : Nat → Option Eipdebuginfo :=
  fun a => if a = 11 then some ⟨"kern/init.c", 3, "fnA", 3, 5⟩ else none

/-- Synthetic frame chain: `isChain mem ebp [e_0, ..., e_{n-1}]` says the
frame-pointer walk starting at `ebp` visits exactly `e_0, ..., e_{n-1}` and
the last saved frame pointer is the zero sentinel.  Each `e_i` is nonzero,
`ebp = e_0`, and the saved frame pointer stored at `e_i` (the 32-bit word at
byte address `e_i`) is `e_{i+1}`, with `0` stored at `e_{n-1}`. -/
def isChain (mem : Nat → Nat) : Nat → List Nat → Prop
  | ebp, [] => ebp = 0
  | ebp, e :: rest => ebp = e ∧ e ≠ 0 ∧ isChain mem (mem e % WORD) rest

/-- Partial frame chain ending at a designated frame pointer: the walk from
`ebp` visits `e_0, ..., e_{n-1}` (all nonzero) and the saved frame pointer of
`e_{n-1}` is `f` (not required to be zero). -/
def isChainTo (mem : Nat → Nat) : Nat → List Nat → Nat → Prop
  | ebp, [], f => ebp = f
  | ebp, e :: rest, f => ebp = e ∧ e ≠ 0 ∧ isChainTo mem (mem e % WORD) rest f

/-! Helper lemmas about the inspector's loop. -/

theorem showmapRow_va (va : Nat) (o : Option Nat) : (showmapRow va o).va = va := by
  cases o with
  | none => rfl
  | some pte =>
    simp only [showmapRow]
    split <;> rfl

theorem showmapLoop_stop {σ : Type} (walk : σ → Nat → Bool → Option Nat × σ)
    (vstart vend : Nat) (s : σ) (h : ¬ vstart < vend) :
    showmapLoop walk vstart vend s = ([], s) := by
  rw [showmapLoop]
  simp [h]

theorem showmapLoop_step {σ : Type} (walk : σ → Nat → Bool → Option Nat × σ)
    (vstart vend : Nat) (s : σ) (h : vstart < vend) :
    showmapLoop walk vstart vend s =
      (showmapRow vstart (walk s vstart false).1
         :: (showmapLoop walk (vstart + PGSIZE) vend (walk s vstart false).2).1,
       (showmapLoop walk (vstart + PGSIZE) vend (walk s vstart false).2).2) := by
  rw [showmapLoop]
  simp [h]

theorem showmapLoop_map_va {σ : Type} (walk : σ → Nat → Bool → Option Nat × σ) :
    ∀ (n : Nat) (a : Nat) (s : σ),
      ((showmapLoop walk a (a + n * PGSIZE) s).1).map MapRow.va
        = (List.range n).map (fun k => a + k * PGSIZE) := by
  intro n
  induction n with
  | zero =>
    intro a s
    rw [showmapLoop_stop walk _ _ _ (by omega)]
    simp
  | succ n ih =>
    intro a s
    have hlt : a < a + (n + 1) * PGSIZE := by
      simp only [PGSIZE]; omega
    rw [showmapLoop_step walk _ _ _ hlt]
    have harith : a + (n + 1) * PGSIZE = (a + PGSIZE) + n * PGSIZE := by ring
    rw [harith]
    simp only [List.map_cons, showmapRow_va, ih (a + PGSIZE), List.range_succ_eq_map,
      List.map_map]
    refine congrArg (a :: ·) ?_
    refine congrArg (List.map · (List.range n)) ?_
    funext k
    simp only [Function.comp_apply, Nat.succ_eq_add_one]
    ring

theorem showmapLoop_length {σ : Type} (walk : σ → Nat → Bool → Option Nat × σ)
    (n a : Nat) (s : σ) :
    ((showmapLoop walk a (a + n * PGSIZE) s).1).length = n := by
  have h := congrArg List.length (showmapLoop_map_va walk n a s)
  simpa using h

theorem showmapLoop_pure_mem (lookup : Nat → Option Nat) :
    ∀ (m a b : Nat), b - a ≤ m →
      ∀ r ∈ (showmapLoop (pureWalker lookup) a b ()).1,
        r = showmapRow r.va (lookup r.va) := by
  intro m
  induction m with
  | zero =>
    intro a b hm r hr
    rw [showmapLoop_stop _ _ _ _ (by omega)] at hr
    cases hr
  | succ m ih =>
    intro a b hm r hr
    by_cases h : a < b
    · rw [showmapLoop_step _ _ _ _ h] at hr
      rcases List.mem_cons.mp hr with hhead | htail
      · subst hhead
        rw [showmapRow_va]
        rfl
      · exact ih (a + PGSIZE) b (by simp only [PGSIZE] at *; omega) r htail
    · rw [showmapLoop_stop _ _ _ _ h] at hr
      cases hr

theorem showmapLoop_state_eq {σ : Type} (walk : σ → Nat → Bool → Option Nat × σ)
    (hw : ∀ (t : σ) (va : Nat), (walk t va false).2 = t) :
    ∀ (m a b : Nat), b - a ≤ m → ∀ s : σ, (showmapLoop walk a b s).2 = s := by
  intro m
  induction m with
  | zero =>
    intro a b hm s
    rw [showmapLoop_stop _ _ _ _ (by omega)]
  | succ m ih =>
    intro a b hm s
    by_cases h : a < b
    · rw [showmapLoop_step _ _ _ _ h]
      rw [ih (a + PGSIZE) b (by simp only [PGSIZE] at *; omega), hw]
    · rw [showmapLoop_stop _ _ _ _ h]

theorem showmapLoop_log_false {σ : Type} (walk : σ → Nat → Bool → Option Nat × σ) :
    ∀ (m a b : Nat), b - a ≤ m → ∀ (s : σ) (log : List (Nat × Bool)),
      ∀ p ∈ (showmapLoop (logWalker walk) a b (s, log)).2.2,
        p ∈ log ∨ p.2 = false := by
  intro m
  induction m with
  | zero =>
    intro a b hm s log p hp
    rw [showmapLoop_stop _ _ _ _ (by omega)] at hp
    exact Or.inl hp
  | succ m ih =>
    intro a b hm s log p hp
    by_cases h : a < b
    · rw [showmapLoop_step _ _ _ _ h] at hp
      have := ih (a + PGSIZE) b (by simp only [PGSIZE] at *; omega)
        (walk s a false).2 (log ++ [(a, false)]) p hp
      rcases this with hin | hfalse
      · rcases List.mem_append.mp hin with hl | hr
        · exact Or.inl hl
        · simp only [List.mem_singleton] at hr
          subst hr
          exact Or.inr rfl
      · exact Or.inr hfalse
    · rw [showmapLoop_stop _ _ _ _ h] at hp
      exact Or.inl hp

theorem mon_showmap_state_eq {σ : Type} (walk : σ → Nat → Bool → Option Nat × σ)
    (hw : ∀ (t : σ) (va : Nat), (walk t va false).2 = t)
    (args : List Nat) (s : σ) : (mon_showmap walk args s).state = s := by
  cases args with
  | nil => rfl
  | cons a1 rest =>
    simp only [mon_showmap]
    exact showmapLoop_state_eq walk hw _ _ _ (Nat.le_refl _) s

theorem ROUNDDOWN_add_mul (x k n : Nat) (hn : 0 < n) :
    ROUNDDOWN (x + k * n) n = ROUNDDOWN x n + k * n := by
  unfold ROUNDDOWN
  rw [Nat.add_mul_div_right x k hn, Nat.add_mul]

/-! Bit-level facts relating the embedding's C-style mask operations to the
spec's phrasing (offset bits cleared, individual permission bits). -/

theorem and_one_ne_iff (p : Nat) : (p &&& PTE_P ≠ 0) ↔ p.testBit 0 = true := by
  have h := Nat.and_two_pow p 0
  simp only [pow_zero, mul_one] at h
  simp only [PTE_P, h]
  cases hp : p.testBit 0 <;> simp

theorem pteBit_U_eq (p : Nat) : pteBit p PTE_U = cond (p.testBit 2) 1 0 := by
  have h := Nat.and_two_pow p 2
  simp only [pteBit, PTE_U, show (4 : Nat) = 2 ^ 2 from rfl, h]
  cases hp : p.testBit 2 <;> simp

theorem pteBit_W_eq (p : Nat) : pteBit p PTE_W = cond (p.testBit 1) 1 0 := by
  have h := Nat.and_two_pow p 1
  norm_num at h
  simp only [pteBit, PTE_W, h]
  cases hp : p.testBit 1 <;> simp

theorem PTE_ADDR_eq_clear_low (p : Nat) (hp : p < WORD) :
    PTE_ADDR p = 4096 * (p / 4096) := by
  have hshift : (4096 : Nat) * (p / 4096) = (p >>> 12) <<< 12 := by
    rw [Nat.shiftRight_eq_div_pow, Nat.shiftLeft_eq,
      show (2 : Nat) ^ 12 = 4096 from rfl]
    ring
  have hmask : (0xFFFFF000 : Nat) = (2 ^ 20 - 1) <<< 12 := by
    rw [Nat.shiftLeft_eq]
    rfl
  rw [PTE_ADDR, hshift, hmask]
  apply Nat.eq_of_testBit_eq
  intro i
  rw [Nat.testBit_land, Nat.testBit_shiftLeft, Nat.testBit_shiftLeft,
    Nat.testBit_shiftRight, Nat.testBit_two_pow_sub_one]
  by_cases h12 : 12 ≤ i
  · by_cases h32 : i < 32
    · simp [h12, show i - 12 < 20 by omega, show 12 + (i - 12) = i by omega]
    · have hbit : p.testBit i = false := by
        apply Nat.testBit_lt_two_pow
        calc p < 2 ^ 32 := hp
          _ ≤ 2 ^ i := Nat.pow_le_pow_right (by norm_num) (by omega)
      simp [h12, hbit, show ¬ (i - 12 < 20) by omega,
        show 12 + (i - 12) = i by omega]
  · simp [h12]

/-! Helper lemmas about the unwinder's loop. -/

theorem backtraceLoop_chain_frames (mem : Nat → Nat)
    (resolve : Nat → Option Eipdebuginfo) :
    ∀ (chain : List Nat) (ebp fuel : Nat),
      isChain mem ebp chain →
      (∀ e ∈ chain, (resolve (mem (e + 4) % WORD)).isSome) →
      chain.length ≤ fuel →
      ((backtraceLoop mem resolve fuel ebp).frames).map BacktraceFrame.ebp
        = chain := by
  intro chain
  induction chain with
  | nil =>
    intro ebp fuel hch _ _
    simp only [isChain] at hch
    cases fuel <;> simp [backtraceLoop, hch]
  | cons e rest ih =>
    intro ebp fuel hch hres hlen
    simp only [isChain] at hch
    obtain ⟨rfl, hne, hch'⟩ := hch
    cases fuel with
    | zero => simp at hlen
    | succ f =>
      have hr := hres ebp (by simp)
      obtain ⟨i, hi⟩ := Option.isSome_iff_exists.mp hr
      simp only [backtraceLoop, if_pos hne, hi, List.map_cons]
      refine congrArg (ebp :: ·) ?_
      exact ih (mem ebp % WORD) f hch'
        (fun x hx => hres x (List.mem_cons_of_mem _ hx)) (by simpa using hlen)

theorem backtraceLoop_chainTo (mem : Nat → Nat)
    (resolve : Nat → Option Eipdebuginfo) :
    ∀ (good : List Nat) (ebp fuel f0 : Nat),
      isChainTo mem ebp good f0 →
      (∀ e ∈ good, (resolve (mem (e + 4) % WORD)).isSome) →
      f0 ≠ 0 →
      resolve (mem (f0 + 4) % WORD) = none →
      good.length < fuel →
      ((backtraceLoop mem resolve fuel ebp).frames).map BacktraceFrame.ebp
          = good ∧
        (backtraceLoop mem resolve fuel ebp).resolveCalls
          = good.map (fun e => mem (e + 4) % WORD) ++ [mem (f0 + 4) % WORD] := by
  intro good
  induction good with
  | nil =>
    intro ebp fuel f0 hch _ hf0 hfail hlen
    simp only [isChainTo] at hch
    subst hch
    cases fuel with
    | zero => simp at hlen
    | succ f => simp [backtraceLoop, if_pos hf0, hfail]
  | cons e rest ih =>
    intro ebp fuel f0 hch hres hf0 hfail hlen
    simp only [isChainTo] at hch
    obtain ⟨rfl, hne, hch'⟩ := hch
    cases fuel with
    | zero => simp at hlen
    | succ f =>
      have hr := hres ebp (by simp)
      obtain ⟨i, hi⟩ := Option.isSome_iff_exists.mp hr
      have hrec := ih (mem ebp % WORD) f f0 hch'
        (fun x hx => hres x (List.mem_cons_of_mem _ hx)) hf0 hfail
        (by simpa using hlen)
      simp only [backtraceLoop, if_pos hne, hi, List.map_cons]
      exact ⟨congrArg (ebp :: ·) hrec.1, by simp [hrec.2]⟩

/-! Claim theorems. -/

/-- Claim C5: if the initial frame pointer is the zero sentinel, the unwinder
produces an empty sequence; the recorded resolver-call and stack-load traces
are empty as well, for every memory, resolver, fuel and invocation, so the
debug-info resolver is never called and the frame pointer is never
dereferenced. -/
theorem backtrace_zero_ebp_empty (mem : Nat → Nat)
    (resolve : Nat → Option Eipdebuginfo) (fuel argc : Nat)
    (argv : List String) (tf : Option Trapframe) :
    (mon_backtrace mem resolve 0 fuel argc argv tf).1 = ⟨[], [], []⟩ := by
  cases fuel <;> simp [mon_backtrace, backtraceLoop]

/-- Claim C6: invoked with no address argument (argument count below 2, i.e.
no arguments beyond the command name), the mapping inspector emits the usage
message, returns status `0` and leaves the state untouched; with a logging
walker the call log stays empty, so no page lookup is performed. -/
theorem showmap_no_args_usage {σ : Type}
    (walk : σ → Nat → Bool → Option Nat × σ) (s : σ) :
    mon_showmap walk [] s = ⟨ShowmapOut.usage, 0, s⟩ ∧
    (mon_showmap (logWalker walk) [] (s, ([] : List (Nat × Bool)))).state.2
      = [] :=
  ⟨rfl, rfl⟩

/-- Claim C8: for every invocation — any arguments, any trap context, any
stack or page-table state — both `mon_backtrace` and `mon_showmap` return
status `0`, never the negative loop-terminating value. -/
theorem monitor_commands_status_zero {σ : Type}
    (walk : σ → Nat → Bool → Option Nat × σ) (args : List Nat) (s : σ)
    (mem : Nat → Nat) (resolve : Nat → Option Eipdebuginfo)
    (ebp0 fuel argc : Nat) (argv : List String) (tf : Option Trapframe) :
    (mon_backtrace mem resolve ebp0 fuel argc argv tf).2 = 0 ∧
    (mon_showmap walk args s).status = 0 := by
  refine ⟨rfl, ?_⟩
  cases args <;> rfl

/-- Claim C9: against a walker that satisfies the non-creating contract
(looking up with `create = false` leaves the page-table state unchanged),
running the inspector a second time with identical arguments from the state
the first run left behind yields the identical result — output rows, status
and state. -/
theorem showmap_idempotent {σ : Type}
    (walk : σ → Nat → Bool → Option Nat × σ)
    (hw : ∀ (t : σ) (va : Nat), (walk t va false).2 = t)
    (args : List Nat) (s : σ) :
    mon_showmap walk args ((mon_showmap walk args s).state)
      = mon_showmap walk args s := by
  rw [mon_showmap_state_eq walk hw args s]

/-- Witness for C9 at a concrete pure walker and arguments. -/
theorem showmap_idempotent_witness :
    mon_showmap (pureWalker demoLookup) [0x00400000, 2]
        ((mon_showmap (pureWalker demoLookup) [0x00400000, 2] ()).state)
      = mon_showmap (pureWalker demoLookup) [0x00400000, 2] () :=
  showmap_idempotent (pureWalker demoLookup) (fun _ _ => rfl) [0x00400000, 2] ()

/-- Claim C7: every walker invocation the inspector makes passes
`createIfMissing = false` (all logged create flags are `false`), and under
the walker contract that the non-creating mode leaves the page-table state
unchanged, the whole inspection leaves the page-table state unchanged. -/
theorem showmap_noncreating_readonly {σ : Type}
    (walk : σ → Nat → Bool → Option Nat × σ) (args : List Nat) (s : σ) :
    (∀ p ∈ (mon_showmap (logWalker walk) args
        (s, ([] : List (Nat × Bool)))).state.2, p.2 = false) ∧
    ((∀ (t : σ) (va : Nat), (walk t va false).2 = t) →
      (mon_showmap walk args s).state = s) := by
  constructor
  · intro p hp
    cases args with
    | nil => simp [mon_showmap] at hp
    | cons a1 rest =>
      simp only [mon_showmap] at hp
      rcases showmapLoop_log_false walk _ _ _ (Nat.le_refl _) s [] p hp with
        hin | hfalse
      · cases hin
      · exact hfalse
  · intro hcontract
    exact mon_showmap_state_eq walk hcontract args s

/-- Witness for C7 at a concrete pure walker and arguments. -/
theorem showmap_noncreating_readonly_witness :
    (∀ p ∈ (mon_showmap (logWalker (pureWalker demoLookup)) [0x00400000, 2]
        ((), ([] : List (Nat × Bool)))).state.2, p.2 = false) ∧
    ((∀ (t : Unit) (va : Nat), (pureWalker demoLookup t va false).2 = t) →
      (mon_showmap (pureWalker demoLookup) [0x00400000, 2] ()).state = ()) :=
  showmap_noncreating_readonly (pureWalker demoLookup) [0x00400000, 2] ()

/-- Claim C2: on a synthetic frame chain that ends with a zero saved frame
pointer and all of whose return addresses resolve, the unwinder emits exactly
one entry per chain frame, in chain order (nearest caller first): the emitted
frame pointers are exactly the chain. -/
theorem backtrace_chain_complete (mem : Nat → Nat)
    (resolve : Nat → Option Eipdebuginfo) (chain : List Nat)
    (ebp0 fuel argc : Nat) (argv : List String) (tf : Option Trapframe)
    (hch : isChain mem (ebp0 % WORD) chain)
    (hres : ∀ e ∈ chain, (resolve (mem (e + 4) % WORD)).isSome)
    (hfuel : chain.length ≤ fuel) :
    ((mon_backtrace mem resolve ebp0 fuel argc argv tf).1).frames.length
        = chain.length ∧
    ((mon_backtrace mem resolve ebp0 fuel argc argv tf).1).frames.map
        BacktraceFrame.ebp = chain := by
  have h := backtraceLoop_chain_frames mem resolve chain (ebp0 % WORD) fuel
    hch hres hfuel
  refine ⟨?_, h⟩
  have hlen := congrArg List.length h
  simpa using hlen

/-- Witness for C2 on the two-frame synthetic stack `memChain2`. -/
theorem backtrace_chain_complete_witness :
    isChain memChain2 (100 % WORD) [100, 200] ∧
    ((mon_backtrace memChain2 resChain2 100 10 0 [] none).1).frames.length
        = 2 ∧
    ((mon_backtrace memChain2 resChain2 100 10 0 [] none).1).frames.map
        BacktraceFrame.ebp = [100, 200] := by
  have hch : isChain memChain2 (100 % WORD) [100, 200] := by
    simp [isChain, memChain2, WORD]
  have h := backtrace_chain_complete memChain2 resChain2 [100, 200] 100 10 0
    [] none hch (by decide) (by decide)
  exact ⟨hch, h.1, h.2⟩

/-- Claim C3: if a return address in the chain fails debug-info resolution,
the unwinder emits entries exactly for the frames before the failing one and
stops: the emitted frame pointers are the pre-failure chain, and the resolver
was called once per pre-failure frame plus once for the failing return
address, after which iteration ended. -/
theorem backtrace_stops_at_unresolvable (mem : Nat → Nat)
    (resolve : Nat → Option Eipdebuginfo) (good : List Nat)
    (fp ebp0 fuel argc : Nat) (argv : List String) (tf : Option Trapframe)
    (hch : isChainTo mem (ebp0 % WORD) good fp)
    (hres : ∀ e ∈ good, (resolve (mem (e + 4) % WORD)).isSome)
    (hfp : fp ≠ 0)
    (hfail : resolve (mem (fp + 4) % WORD) = none)
    (hfuel : good.length < fuel) :
    ((mon_backtrace mem resolve ebp0 fuel argc argv tf).1).frames.length
        = good.length ∧
    ((mon_backtrace mem resolve ebp0 fuel argc argv tf).1).frames.map
        BacktraceFrame.ebp = good ∧
    (mon_backtrace mem resolve ebp0 fuel argc argv tf).1.resolveCalls
        = good.map (fun e => mem (e + 4) % WORD) ++ [mem (fp + 4) % WORD] := by
  have h := backtraceLoop_chainTo mem resolve good (ebp0 % WORD) fuel fp
    hch hres hfp hfail hfuel
  refine ⟨?_, h.1, h.2⟩
  have hlen := congrArg List.length h.1
  simpa using hlen

/-- Witness for C3: on `memChain2` with a resolver that fails on the second
frame's return address, only the first frame is emitted. -/
theorem backtrace_stops_at_unresolvable_witness :
    isChainTo memChain2 (100 % WORD) [100] 200 ∧
    ((mon_backtrace memChain2 resFail1 100 10 0 [] none).1).frames.length
        = 1 ∧
    ((mon_backtrace memChain2 resFail1 100 10 0 [] none).1).frames.map
        BacktraceFrame.ebp = [100] ∧
    (mon_backtrace memChain2 resFail1 100 10 0 [] none).1.resolveCalls
        = [100].map (fun e => memChain2 (e + 4) % WORD)
            ++ [memChain2 (200 + 4) % WORD] := by
  have hch : isChainTo memChain2 (100 % WORD) [100] 200 := by
    simp [isChainTo, memChain2, WORD]
  have h := backtrace_stops_at_unresolvable memChain2 resFail1 [100] 200 100
    10 0 [] none hch (by decide) (by decide) (by decide) (by decide)
  exact ⟨hch, h.1, h.2.1, h.2.2⟩

/-- Counterexample to claim C1 as stated: at the page-aligned start address
`0xFFFFF000` with pageCount `1`, the 32-bit end-address computation wraps to
`0`, the `vstart < vend` guard fails immediately, and the inspector produces
zero rows instead of the claimed one row per page. -/
theorem showmap_wrap_cex :
    0xFFFFF000 % PGSIZE = 0 ∧
    ((mon_showmap (pureWalker noneLookup) [0xFFFFF000, 1] ()).out.rowList).length
      ≠ 1 := by
  refine ⟨by decide, ?_⟩
  have hout : (mon_showmap (pureWalker noneLookup) [0xFFFFF000, 1] ()).out
      = ShowmapOut.rows [] := by
    simp [mon_showmap, showmapLoop, pureWalker, ROUNDDOWN, WORD, PGSIZE]
  rw [hout]
  simp [ShowmapOut.rowList]

/-- Claim C1 (amended): for every page-aligned `vstart` and positive `count`
such that the end address `vstart + count * PGSIZE` does not wrap the 32-bit
word (when it wraps, the loop's unsigned comparison exits early and fewer
rows are produced — see the counterexample), the inspector emits exactly
`count` rows, the k-th with virtual address `vstart + k * PGSIZE`, in
strictly ascending order. -/
theorem showmap_aligned_row_spec {σ : Type}
    (walk : σ → Nat → Bool → Option Nat × σ) (s : σ) (vstart count : Nat)
    (hal : vstart % PGSIZE = 0) (hpos : 0 < count)
    (hnw : vstart + count * PGSIZE < WORD) :
    ((mon_showmap walk [vstart, count] s).out.rowList).length = count ∧
    ((mon_showmap walk [vstart, count] s).out.rowList).map MapRow.va
      = (List.range count).map (fun k => vstart + k * PGSIZE) ∧
    (((mon_showmap walk [vstart, count] s).out.rowList).map
      MapRow.va).Pairwise (· < ·) := by
  have hps : 0 < PGSIZE := by decide
  have hcnt : count ≤ count * PGSIZE := Nat.le_mul_of_pos_right count hps
  have hv : vstart < WORD := by omega
  have hc : count < WORD := by omega
  have h1 : vstart % WORD = vstart := Nat.mod_eq_of_lt hv
  have h2 : count % WORD = count := Nat.mod_eq_of_lt hc
  have h3 : (vstart + count * PGSIZE) % WORD = vstart + count * PGSIZE :=
    Nat.mod_eq_of_lt hnw
  have h4 : ROUNDDOWN vstart PGSIZE = vstart := by
    unfold ROUNDDOWN
    exact Nat.div_mul_cancel (Nat.dvd_of_mod_eq_zero hal)
  have h5 : ROUNDDOWN (vstart + count * PGSIZE) PGSIZE
      = vstart + count * PGSIZE := by
    rw [ROUNDDOWN_add_mul vstart count PGSIZE hps, h4]
  have hout : (mon_showmap walk [vstart, count] s).out
      = ShowmapOut.rows
          (showmapLoop walk vstart (vstart + count * PGSIZE) s).1 := by
    simp only [mon_showmap, h1, h2, h3, h4, h5]
  rw [hout]
  simp only [ShowmapOut.rowList]
  refine ⟨showmapLoop_length walk count vstart s,
    showmapLoop_map_va walk count vstart s, ?_⟩
  rw [showmapLoop_map_va walk count vstart s, List.pairwise_map]
  refine (List.pairwise_lt_range count).imp ?_
  intro a b hab
  simp only [PGSIZE]
  omega

/-- Witness for the amended claim C1 on the spec's concrete scenario. -/
theorem showmap_aligned_row_spec_witness :
    0x00400000 % PGSIZE = 0 ∧ 0 < 2 ∧ 0x00400000 + 2 * PGSIZE < WORD ∧
    (((mon_showmap (pureWalker demoLookup) [0x00400000, 2] ()).out.rowList).length
        = 2 ∧
      ((mon_showmap (pureWalker demoLookup) [0x00400000, 2] ()).out.rowList).map
          MapRow.va
        = (List.range 2).map (fun k => 0x00400000 + k * PGSIZE) ∧
      (((mon_showmap (pureWalker demoLookup) [0x00400000, 2] ()).out.rowList).map
        MapRow.va).Pairwise (· < ·)) :=
  ⟨by decide, by decide, by decide,
    showmap_aligned_row_spec (pureWalker demoLookup) () 0x00400000 2
      (by decide) (by decide) (by decide)⟩

/-- Claim C10: for every start address, page-aligned or not, and positive
page count whose unwrapped end address fits the word, the inspector still
produces exactly `count` rows, the k-th at
`ROUNDDOWN(vstart, PGSIZE) + k * PGSIZE`, the first at
`ROUNDDOWN(vstart, PGSIZE)`: because the unrounded end shares the start's
page offset, rounding both down preserves a span of exactly `count` pages. -/
theorem showmap_unaligned_row_spec {σ : Type}
    (walk : σ → Nat → Bool → Option Nat × σ) (s : σ) (vstart count : Nat)
    (hpos : 0 < count) (hnw : vstart + count * PGSIZE < WORD) :
    ((mon_showmap walk [vstart, count] s).out.rowList).length = count ∧
    ((mon_showmap walk [vstart, count] s).out.rowList).map MapRow.va
      = (List.range count).map
          (fun k => ROUNDDOWN vstart PGSIZE + k * PGSIZE) ∧
    (((mon_showmap walk [vstart, count] s).out.rowList).map MapRow.va).head?
      = some (ROUNDDOWN vstart PGSIZE) := by
  have hps : 0 < PGSIZE := by decide
  have hcnt : count ≤ count * PGSIZE := Nat.le_mul_of_pos_right count hps
  have hv : vstart < WORD := by omega
  have hc : count < WORD := by omega
  have h1 : vstart % WORD = vstart := Nat.mod_eq_of_lt hv
  have h2 : count % WORD = count := Nat.mod_eq_of_lt hc
  have h3 : (vstart + count * PGSIZE) % WORD = vstart + count * PGSIZE :=
    Nat.mod_eq_of_lt hnw
  have h5 : ROUNDDOWN (vstart + count * PGSIZE) PGSIZE
      = ROUNDDOWN vstart PGSIZE + count * PGSIZE :=
    ROUNDDOWN_add_mul vstart count PGSIZE hps
  have hout : (mon_showmap walk [vstart, count] s).out
      = ShowmapOut.rows
          (showmapLoop walk (ROUNDDOWN vstart PGSIZE)
            (ROUNDDOWN vstart PGSIZE + count * PGSIZE) s).1 := by
    simp only [mon_showmap, h1, h2, h3, h5]
  rw [hout]
  simp only [ShowmapOut.rowList]
  refine ⟨showmapLoop_length walk count _ s,
    showmapLoop_map_va walk count _ s, ?_⟩
  rw [showmapLoop_map_va walk count _ s]
  cases count with
  | zero => omega
  | succ n =>
    rw [List.range_succ_eq_map]
    simp

/-- Witness for claim C10 at a non-page-aligned start address. -/
theorem showmap_unaligned_row_spec_witness :
    0 < 1 ∧ 0x00400123 + 1 * PGSIZE < WORD ∧
    (((mon_showmap (pureWalker demoLookup) [0x00400123, 1] ()).out.rowList).length
        = 1 ∧
      ((mon_showmap (pureWalker demoLookup) [0x00400123, 1] ()).out.rowList).map
          MapRow.va
        = (List.range 1).map
            (fun k => ROUNDDOWN 0x00400123 PGSIZE + k * PGSIZE) ∧
      (((mon_showmap (pureWalker demoLookup) [0x00400123, 1] ()).out.rowList).map
          MapRow.va).head?
        = some (ROUNDDOWN 0x00400123 PGSIZE)) :=
  ⟨by decide, by decide,
    showmap_unaligned_row_spec (pureWalker demoLookup) () 0x00400123 1
      (by decide) (by decide)⟩

/-- Claim C4: every row the inspector emits is determined by the walker's
answer for that row's page: a missing leaf entry or a clear present bit
(bit 0 of the 32-bit entry) yields the absent-mapping row; a present entry
yields the entry's value with the low 12 page-offset bits cleared as the
physical address, and the entry's user bit (bit 2) and writable bit (bit 1)
reported exactly, as 0/1 values. -/
theorem showmap_row_content (lookup : Nat → Option Nat) (args : List Nat) :
    ∀ r ∈ (mon_showmap (pureWalker lookup) args ()).out.rowList,
      (lookup r.va = none → r.entry = none) ∧
      (∀ pte, lookup r.va = some pte → (pte % WORD).testBit 0 = false →
        r.entry = none) ∧
      (∀ pte, lookup r.va = some pte → (pte % WORD).testBit 0 = true →
        r.entry = some (4096 * (pte % WORD / 4096),
                        cond ((pte % WORD).testBit 2) 1 0,
                        cond ((pte % WORD).testBit 1) 1 0)) := by
  intro r hr
  have hchar : r = showmapRow r.va (lookup r.va) := by
    cases args with
    | nil => simp [mon_showmap, ShowmapOut.rowList] at hr
    | cons a1 rest =>
      simp only [mon_showmap, ShowmapOut.rowList] at hr
      exact showmapLoop_pure_mem lookup _ _ _ (Nat.le_refl _) r hr
  have hWORD : (0 : Nat) < WORD := by decide
  refine ⟨?_, ?_, ?_⟩
  · intro hnone
    rw [hchar, hnone]
    rfl
  · intro pte hpte hbit
    rw [hchar, hpte]
    simp only [showmapRow]
    rw [if_neg]
    intro hne
    rw [and_one_ne_iff] at hne
    rw [hne] at hbit
    cases hbit
  · intro pte hpte hbit
    rw [hchar, hpte]
    simp only [showmapRow]
    rw [if_pos ((and_one_ne_iff (pte % WORD)).mpr hbit)]
    rw [PTE_ADDR_eq_clear_low (pte % WORD) (Nat.mod_lt pte hWORD),
      pteBit_U_eq, pteBit_W_eq]

/-- Witness for claim C4: the row for the mapped demo page carries the
masked physical address and the exact permission bits. -/
theorem showmap_row_content_witness :
    demoRow ∈ (mon_showmap (pureWalker demoLookup) [0x00400000] ()).out.rowList
      ∧
    demoRow.entry = some (4096 * (0x00100007 % WORD / 4096),
                          cond ((0x00100007 % WORD).testBit 2) 1 0,
                          cond ((0x00100007 % WORD).testBit 1) 1 0) := by
  have hloop : (showmapLoop (pureWalker demoLookup) 0x00400000 0x00401000 ()).1
      = [demoRow] := by
    rw [showmapLoop_step _ _ _ _ (by norm_num),
      showmapLoop_stop _ _ _ _ (by norm_num [PGSIZE])]
    decide
  have hmem : demoRow
      ∈ (mon_showmap (pureWalker demoLookup) [0x00400000] ()).out.rowList := by
    have e1 : ROUNDDOWN (0x00400000 % WORD) PGSIZE = 0x00400000 := by decide
    have e2 : ROUNDDOWN ((0x00400000 % WORD + 1 * PGSIZE) % WORD) PGSIZE
        = 0x00401000 := by decide
    simp only [mon_showmap, e1, e2, ShowmapOut.rowList, hloop]
    exact List.mem_singleton.mpr rfl
  refine ⟨hmem, ?_⟩
  exact (showmap_row_content demoLookup [0x00400000] demoRow hmem).2.2
    0x00100007 rfl (by decide)

end JosMonitor
